import Mathlib

/-!
Verification development for the `cachecache` package
(`src/cachecache/cachecache.py` and `src/cachecache/utils.py`).

The Python code is shallowly embedded: argument values become the inductive
type `Val`, Python dictionaries become association lists with insert-overwrite
semantics, raised exceptions become `Except PyErr`, and the observable
interactions of a call with the storage engine (opening a store, size
reduction, lookups, stores, entry clearing) become explicit event traces.
-/

deriving instance DecidableEq for Except

namespace Cachecache

/-- Python runtime values that appear as function arguments and results in
the claims: integers, strings, booleans, `pathlib.Path` objects and `None`. -/
inductive Val where
  | int : Int → Val
  | str : String → Val
  | bool : Bool → Val
  | path : String → Val
  | none : Val
  deriving DecidableEq, Repr

/-- Python truthiness (`if not cache_results`, `if again`): `0`, `""`, `False`
and `None` are falsy; `Path` objects are always truthy. -/
def truthy : Val → Bool
  | .int n => n != 0
  | .str s => s != ""
  | .bool b => b
  | .path _ => true
  | .none => false

/-- Exceptions raised by the embedded code. `assertionError` is the
`SignatureMismatch` assertion in `make_arg_kwargs_dic`; `valueError` is the
missing-parent `ValueError` in `instanciate_joblib_cache`; `indexError` is
the out-of-range access `arg_kwarg_names[i]`; `typeError` is Python's
call-binding error. -/
inductive PyErr where
  | assertionError
  | indexError
  | typeError
  | valueError
  | keyError
  deriving DecidableEq, Repr

/-- One entry of a Python dict keyed by strings. -/
abbrev Entry := String × Val

/-- A Python dict (insertion-ordered association list with unique keys as
built by the embedded operations). -/
abbrev Dict := List Entry

/-- Dict lookup `d[k]` / `d.get(k)`: first entry whose key matches. -/
def alookup {κ β : Type} [DecidableEq κ] : List (κ × β) → κ → Option β
  | [], _ => Option.none
  | (k, v) :: rest, n => if k = n then some v else alookup rest n

/-- Dict assignment `d[k] = v`: overwrite in place when the key is present,
append otherwise. -/
def ainsert {κ β : Type} [DecidableEq κ] : List (κ × β) → κ → β → List (κ × β)
  | [], k, v => [(k, v)]
  | (a, b) :: rest, k, v =>
    if a = k then (k, v) :: rest else (a, b) :: ainsert rest k v

/-- Dict deletion `del d[k]` (also the storage engine's entry removal). -/
def aerase {κ β : Type} [DecidableEq κ] : List (κ × β) → κ → List (κ × β)
  | [], _ => []
  | (a, b) :: rest, k =>
    if a = k then aerase rest k else (a, b) :: aerase rest k

/-- Successively assign every entry of `l` into `d`; this is both the
positional-argument loop and the `{**a, **b}` merge of the source. -/
def dinsertAll (d : Dict) (l : List Entry) : Dict :=
  l.foldl (fun d p => ainsert d p.1 p.2) d

/-- A declared parameter of a Python function signature: its name and its
default value (`Option.none` models `inspect.Parameter.empty`). -/
structure Param where
  name : String
  default : Option Val
  deriving DecidableEq, Repr

/-- A Python function as the embedding sees it: its ordered signature and its
behaviour on a bound argument mapping. -/
structure PyFunc where
  params : List Param
  impl : Dict → Val

/-- The bookkeeping key `name + "_arg_index"` added by `make_arg_kwargs_dic`
for each positionally passed argument. -/
def idxKey (n : String) : String := n ++ "_arg_index"

/-- The entries produced by the positional loop of `make_arg_kwargs_dic`
(`for i, value in enumerate(args)`): for each positional argument, the pair
`(name, value)` followed by `(name + "_arg_index", i)`. -/
def posEntries : List String → List Val → Nat → List Entry
  | _, [], _ => []
  | [], _ :: _, _ => []
  | n :: ns, v :: vs, i => (n, v) :: (idxKey n, .int i) :: posEntries ns vs (i + 1)

/-- The final loop of `make_arg_kwargs_dic`: add every declared parameter
that is not yet present and declares a default, with its default value. -/
def fillDefaults (params : List Param) (d : Dict) : Dict :=
  params.foldl
    (fun d p =>
      if (alookup d p.name).isSome then d
      else
        match p.default with
        | some v => ainsert d p.name v
        | Option.none => d)
    d

/-- Embedding of `make_arg_kwargs_dic(func, args, kwargs)`
(src/cachecache/cachecache.py lines 13-58): assert every keyword name is a
declared parameter, map positional arguments to parameter names by position
(adding the `_arg_index` bookkeeping keys), merge the keyword arguments on
top (`{**args_kwargs, **kwargs}`), then fill in defaults for declared
parameters that are still absent and have one. Passing more positional
arguments than declared parameters raises `IndexError` at
`arg_kwarg_names[i]`. -/
def makeArgKwargsDic (func : PyFunc) (args : List Val) (kwargs : Dict) :
    Except PyErr Dict :=
  let names := func.params.map Param.name
  if kwargs.any (fun p => !(names.contains p.1)) then
    .error .assertionError
  else if names.length < args.length then
    .error .indexError
  else
    let posDict := dinsertAll [] (posEntries names args 0)
    let merged := dinsertAll posDict kwargs
    .ok (fillDefaults func.params merged)

/-- What the filesystem probes report about one cache target path: whether
its parent directory exists (`path.parent.exists()`), whether the
`os.access` write-permission probe succeeds, and the free bytes reported by
`shutil.disk_usage` / `psutil.disk_usage`. -/
structure FS where
  parentExists : Bool
  writePerm : Bool
  freeBytes : Int
  deriving DecidableEq, Repr

/-- Embedding of `utils.has_space_left(path, required_space_mb)`: free space
in megabytes is at least the requirement (exact integer arithmetic stands in
for the float division by 1024*1024). -/
def hasSpaceLeft (fs : FS) (requiredSpaceMb : Int) : Bool :=
  fs.freeBytes ≥ requiredSpaceMb * 1024 * 1024

/-- Embedding of `utils.is_writable(path, required_space_mb)`:
`has_space_left(path, required_space_mb) & has_write_permission(path)`. -/
def isWritable (fs : FS) (requiredSpaceMb : Int) : Bool :=
  hasSpaceLeft fs requiredSpaceMb && fs.writePerm

/-- The joblib `Memory` object as the embedded code observes it: the
`caching_memory_allocation` attribute set on it at open time. The entries
resident at its location are threaded separately (`Store`). -/
structure Memory where
  cachingMemoryAllocation : Int
  deriving DecidableEq, Repr

/-- The entries resident in one store: fingerprint key to cached value.
Modelled from the spec: the external storage engine is a persistent
key-to-value store with `put` / `get` / `delete` (section 6 of the spec). -/
abbrev Store := List (Dict × Val)

/-- Observable interactions of a call with the storage engine and the
filesystem, in order of occurrence:
`openStore p` = `instanciate_joblib_cache` invoked for path `p`;
`warnLowSpace` = the below-5GB warning printed at open;
`reduceSize l` = `memory.reduce_size(bytes_limit=l)`;
`fingerprint` = `make_arg_kwargs_dic` invoked to build the argument mapping;
`lookupHit` / `lookupMiss` = the storage engine's lookup during
`call_and_shelve`; `compute` = the underlying function body executed;
`storePut` = the computed result persisted; `clearEntry` = `mem.clear()`. -/
inductive Ev where
  | openStore (p : Val)
  | warnLowSpace
  | reduceSize (limit : Int)
  | fingerprint
  | lookupHit (key : Dict)
  | lookupMiss (key : Dict)
  | compute (key : Dict)
  | storePut (key : Dict) (v : Val)
  | clearEntry (key : Dict)
  deriving DecidableEq, Repr

/-- Embedding of `Cacher.instanciate_joblib_cache(path,
caching_memory_allocation)` (src/cachecache/cachecache.py lines 235-286):
raise `ValueError` when the parent directory of the target does not exist;
return `None` (soft degrade) when `is_writable(path, required_space_mb=10)`
fails; otherwise create the `Memory` object, default the allocation to
`free - 1e9` bytes, warn when free space is below 5GB, and call
`memory.reduce_size(bytes_limit=allocation)` once. -/
def instanciateJoblibCache (path : Val) (fs : FS)
    (cachingMemoryAllocation : Option Int) :
    Except PyErr (Option Memory) × List Ev :=
  if fs.parentExists = false then
    (.error .valueError, [.openStore path])
  else if isWritable fs 10 = false then
    (.ok Option.none, [.openStore path])
  else
    let alloc := cachingMemoryAllocation.getD (fs.freeBytes - 1000000000)
    (.ok (some ⟨alloc⟩),
      [.openStore path]
        ++ (if fs.freeBytes < 5000000000 then [.warnLowSpace] else [])
        ++ [.reduceSize alloc])

/-- Bind one declared parameter of a call, Python style: positionally when
its index is within `args`, else from the keyword arguments, else from its
default; a parameter left unbound is a `TypeError`. -/
def bindOne (p : Param) (i : Nat) (args : List Val) (kwargs : Dict) :
    Except PyErr Entry :=
  match args[i]? with
  | some v => .ok (p.name, v)
  | Option.none =>
    match alookup kwargs p.name with
    | some v => .ok (p.name, v)
    | Option.none =>
      match p.default with
      | some v => .ok (p.name, v)
      | Option.none => .error .typeError

/-- Bind every declared parameter in order (the parameter at position `i`
in the signature sees `args[i]`). -/
def bindAll : List Param → Nat → List Val → Dict → Except PyErr Dict
  | [], _, _, _ => .ok []
  | p :: ps, i, args, kwargs => do
    let e ← bindOne p i args kwargs
    let rest ← bindAll ps (i + 1) args kwargs
    return e :: rest

/-- Python call semantics `f(*args, **kwargs)` for a function of plain
positional-or-keyword parameters: `TypeError` on too many positional
arguments, on an unexpected keyword name, or on a keyword that repeats a
positionally bound parameter; otherwise run the body on the bound mapping. -/
def callFunc (f : PyFunc) (args : List Val) (kwargs : Dict) :
    Except PyErr Val :=
  let names := f.params.map Param.name
  if f.params.length < args.length then .error .typeError
  else if kwargs.any (fun p => !(names.contains p.1)) then .error .typeError
  else if kwargs.any (fun p => (names.take args.length).contains p.1) then
    .error .typeError
  else (bindAll f.params 0 args kwargs).map f.impl

/-- The value a call binds to declared parameter `n`, independent of how the
call splits its arguments between positional and keyword: the keyword value
when passed, else the positional value at the parameter's position (read off
the signature-to-arguments zip), else the declared default. -/
def canonVal (params : List Param) (args : List Val) (kwargs : Dict)
    (n : String) : Option Val :=
  match alookup kwargs n with
  | some v => some v
  | Option.none =>
    match alookup ((params.map Param.name).zip args) n with
    | some v => some v
    | Option.none =>
      if (params.map Param.name).contains n then
        (params.find? (fun p => p.name == n)).bind Param.default
      else Option.none

/-- The complete bound mapping of a call in signature order (parameters the
call leaves unbound and without default are absent). -/
def fullBinding (params : List Param) (args : List Val) (kwargs : Dict) :
    Dict :=
  params.foldl (fun d p =>
    match canonVal params args kwargs p.name with
    | some v => d ++ [(p.name, v)]
    | Option.none => d) []

/-- Modelled from the spec: the external storage engine's (joblib's)
canonical cache key for a call — the call's bound argument mapping with the
ignored control names removed (sections 4.3 and 6 of the spec; the engine
itself is an external collaborator, not repository code). -/
def joblibKey (f : PyFunc) (ignore : List String) (args : List Val)
    (kwargs : Dict) : Dict :=
  (fullBinding f.params args kwargs).filter (fun p => !(ignore.contains p.1))

/-- Modelled from the spec: `call_and_shelve(*args, **kwargs)` of the
external storage engine — on a hit return the store unchanged, on a miss run
the function and persist its result under the key (spec sections 4.2 and 6).
Returns the updated store and the engine-interaction events. -/
def callAndShelve (f : PyFunc) (args : List Val) (kwargs : Dict) (key : Dict)
    (st : Store) : Except PyErr Store × List Ev :=
  match alookup st key with
  | some _ => (.ok st, [.lookupHit key])
  | Option.none =>
    match callFunc f args kwargs with
    | .error e => (.error e, [.lookupMiss key, .compute key])
    | .ok v => (.ok (ainsert st key v), [.lookupMiss key, .compute key, .storePut key v])

/-- The three control argument names of the caching policy. -/
def controlNames : List String := ["again", "cache_results", "cache_path"]

/-- The caching body of `cached_func` once a usable store is resolved
(src/cachecache/cachecache.py lines 210-231): build the argument mapping
with `make_arg_kwargs_dic`, ignore the control names present in it,
`call_and_shelve`, clear the entry when `again` was truthy,
`call_and_shelve` once more and read the result. `evs0` carries the events
of the store resolution that already happened. -/
def cacheThrough (f : PyFunc) (again : Bool) (entries : Store)
    (args : List Val) (kwargs : Dict) :
    Except PyErr Val × Option Store × List Ev :=
  match makeArgKwargsDic f args kwargs with
  | .error e => (.error e, Option.none, [.fingerprint])
  | .ok argKwargs =>
    let ignore := controlNames.filter (fun k => (alookup argKwargs k).isSome)
    let key := joblibKey f ignore args kwargs
    match callAndShelve f args kwargs key entries with
    | (.error e, evs1) => (.error e, Option.none, [.fingerprint] ++ evs1)
    | (.ok st1, evs1) =>
      let cleared := if again then (aerase st1 key, [Ev.clearEntry key])
                     else (st1, ([] : List Ev))
      match callAndShelve f args kwargs key cleared.1 with
      | (.error e, evs3) =>
        (.error e, Option.none, [.fingerprint] ++ evs1 ++ cleared.2 ++ evs3)
      | (.ok st3, evs3) =>
        ((match alookup st3 key with
          | some v => .ok v
          | Option.none => .error .keyError),
         some st3,
         [.fingerprint] ++ evs1 ++ cleared.2 ++ evs3)

/-- Embedding of the wrapped function `cached_func(*args, **kwargs)` built by
`Cacher._decorator` (src/cachecache/cachecache.py lines 184-231):
read the control flags with `kwargs.get` (nothing is removed from `kwargs`);
bypass when `cache_results` is falsy; resolve the store (the Cacher's global
`Memory`, or a run-time `instanciate_joblib_cache(cache_path, None)` when
`cache_path` is not `None`); degrade to a direct call when the resolved
store is `None`; build the argument mapping with `make_arg_kwargs_dic` and
ignore the control names present in it; `call_and_shelve`, clear the entry
when `again` is truthy, `call_and_shelve` again, and read the result.
Inputs: `selfGlobal` is `self.global_cache_memory`, `globalEntries` the
entries resident in it, `fsAt`/`diskAt` the filesystem state and resident
entries at a run-time `cache_path`. Output: the call's result, the resolved
store's final entries (`Option.none` when no store was used), and the event
trace. -/
def cachedFunc (f : PyFunc) (selfGlobal : Option Memory)
    (globalEntries : Store) (fsAt : Val → FS) (diskAt : Val → Store)
    (args : List Val) (kwargs : Dict) :
    Except PyErr Val × Option Store × List Ev :=
  let cacheResults := (alookup kwargs "cache_results").getD (.bool true)
  let again := (alookup kwargs "again").getD (.bool false)
  let cachePath := (alookup kwargs "cache_path").getD .none
  if truthy cacheResults = false then
    (callFunc f args kwargs, Option.none, [])
  else
    let opened : Except PyErr (Option Memory) × List Ev :=
      if cachePath = .none then (.ok selfGlobal, [])
      else instanciateJoblibCache cachePath (fsAt cachePath) Option.none
    match opened with
    | (.error e, evs0) => (.error e, Option.none, evs0)
    | (.ok Option.none, evs0) => (callFunc f args kwargs, Option.none, evs0)
    | (.ok (some _mem), evs0) =>
      let entries := if cachePath = .none then globalEntries else diskAt cachePath
      let r := cacheThrough f (truthy again) entries args kwargs
      (r.1, r.2.1, evs0 ++ r.2.2)

/-- Check whether a value counts as a sensible path for the routing rule:
`isinstance(datapath, (str, Path))`, yielding the underlying string. -/
def pathLike : Val → Option String
  | .str s => some s
  | .path s => some s
  | _ => Option.none

/-- The kwargs rewrite inside `locally_cached_func`
(src/cachecache/cachecache.py lines 351-364): when the designated data-path
argument is present in the argument mapping with a `str`/`Path` value, point
`kwargs["cache_path"]` at `datapath / local_cache_path` unless an explicit
non-`None` `cache_path` was passed (which prevails). -/
def rewriteKwargs (datapathArgName localCachePath : String)
    (argKwargs kwargs : Dict) : Dict :=
  match alookup argKwargs datapathArgName with
  | some datapath =>
    match pathLike datapath with
    | some s =>
      if (alookup kwargs "cache_path").isSome then
        if alookup kwargs "cache_path" = some Val.none then
          ainsert kwargs "cache_path" (.path (s ++ "/" ++ localCachePath))
        else kwargs
      else ainsert kwargs "cache_path" (.path (s ++ "/" ++ localCachePath))
    | Option.none => kwargs
  | Option.none => kwargs

/-- Embedding of `locally_cached_func(*args, **kwargs)` built by
`distributed_cacher(...)` (src/cachecache/cachecache.py lines 343-371):
build the argument mapping, rewrite `kwargs` through the routing rule, then
run the function through the global cacher's `cached_func`. -/
def locallyCachedFunc (datapathArgName : String) (localCachePath : String)
    (f : PyFunc) (selfGlobal : Option Memory) (globalEntries : Store)
    (fsAt : Val → FS) (diskAt : Val → Store) (args : List Val)
    (kwargs : Dict) : Except PyErr Val × Option Store × List Ev :=
  match makeArgKwargsDic f args kwargs with
  | .error e => (.error e, Option.none, [])
  | .ok argKwargs =>
    cachedFunc f selfGlobal globalEntries fsAt diskAt args
      (rewriteKwargs datapathArgName localCachePath argKwargs kwargs)

/-- Character-list prefix test, used to embed Python's substring operator. -/
def isPrefixCh : List Char → List Char → Bool
  | [], _ => true
  | _ :: _, [] => false
  | a :: as, b :: bs => a = b && isPrefixCh as bs

/-- Character-list substring test (`needle in hay` on Python strings). -/
def containsSub (needle : List Char) : List Char → Bool
  | [] => isPrefixCh needle []
  | h :: t => isPrefixCh needle (h :: t) || containsSub needle t

/-- Python's `sub in s` on strings. -/
def strContains (s sub : String) : Bool :=
  containsSub sub.data s.data

/-- A Python function object as seen by the decorator's module rewrite: only
its `__module__` attribute matters here. -/
structure FuncObj where
  module : String
  deriving DecidableEq, Repr

/-- Embedding of the decoration-time side effect of `Cacher._decorator`
(src/cachecache/cachecache.py lines 179-182): when `'__main__' in
func_to_cache.__module__`, set `__module__` to `'cachecache_persistent'`;
otherwise leave the function object untouched. -/
def decoratorModuleEffect (f : FuncObj) : FuncObj :=
  if strContains f.module "__main__" then { f with module := "cachecache_persistent" }
  else f

/-- The value carried by the last occurrence of key `n` in an entry list;
this is what a sequence of dict assignments leaves behind at `n`. -/
def lastVal? : List Entry → String → Option Val
  | [], _ => Option.none
  | (k, v) :: rest, n =>
    (lastVal? rest n).or (if k = n then some v else Option.none)

/-- The number of times the underlying function body was executed during a
call, read off its event trace. -/
def computeCount (evs : List Ev) : Nat :=
  (evs.filter (fun e => match e with | .compute _ => true | _ => false)).length

/-- Whether an event is a size-bounded reduction of the storage engine. -/
def isReduce : Ev → Bool
  | .reduceSize _ => true
  | _ => false

/-- Whether an event persists a fingerprint/result pair. -/
def isStorePut : Ev → Bool
  | .storePut _ _ => true
  | _ => false

/-- Whether an event opens (instantiates) a store. -/
def isOpenStore : Ev → Bool
  | .openStore _ => true
  | _ => false

/-- Read a key from the final entries of a resolved store, when one was
used. -/
def storedAt (st : Option Store) (key : Dict) : Option Val :=
  match st with
  | some st => alookup st key
  | Option.none => Option.none

/-- A function with signature `f(x, y)`, as in the spec's order-independence
example. -/
def twoParamFunc : PyFunc :=
  ⟨[⟨"x", Option.none⟩, ⟨"y", Option.none⟩], fun _ => .none⟩

/-- A function with signature `f(x)`: no control parameter declared. -/
def oneParamFunc : PyFunc :=
  ⟨[⟨"x", Option.none⟩], fun d => (alookup d "x").getD .none⟩

/-- A function with signature `f(x, cache_results=True)`. -/
def bypassFunc : PyFunc :=
  ⟨[⟨"x", Option.none⟩, ⟨"cache_results", some (.bool true)⟩],
   fun d => (alookup d "x").getD .none⟩

/-- A function with signature `f(x, cache_path=None)`. -/
def pathFunc : PyFunc :=
  ⟨[⟨"x", Option.none⟩, ⟨"cache_path", some .none⟩],
   fun d => (alookup d "x").getD .none⟩

/-- A function with signature `f(x, again=False)`. -/
def againFunc : PyFunc :=
  ⟨[⟨"x", Option.none⟩, ⟨"again", some (.bool false)⟩],
   fun d => (alookup d "x").getD .none⟩

/-- A function with signature `f(datapath, x)`. -/
def datapathFunc : PyFunc :=
  ⟨[⟨"datapath", Option.none⟩, ⟨"x", Option.none⟩],
   fun d => (alookup d "x").getD .none⟩

theorem alookup_cons {κ β : Type} [DecidableEq κ] (k : κ) (v : β)
    (rest : List (κ × β)) (n : κ) :
    alookup ((k, v) :: rest) n = if k = n then some v else alookup rest n := rfl

theorem alookup_ainsert {κ β : Type} [DecidableEq κ] (d : List (κ × β))
    (k : κ) (v : β) (n : κ) :
    alookup (ainsert d k v) n = if k = n then some v else alookup d n := by
  induction d with
  | nil => simp [ainsert, alookup]
  | cons p rest ih =>
    obtain ⟨a, b⟩ := p
    by_cases hak : a = k
    · subst hak
      by_cases hn : a = n <;> simp [ainsert, alookup, hn]
    · by_cases hn : a = n
      · have hk : ¬ k = n := fun h => hak (hn.trans h.symm)
        have hnk : ¬ n = k := fun h => hk h.symm
        simp [ainsert, alookup, hak, hn, hk, hnk]
      · simp [ainsert, alookup, hak, hn, ih]

theorem alookup_aerase {κ β : Type} [DecidableEq κ] (d : List (κ × β))
    (k : κ) (n : κ) :
    alookup (aerase d k) n = if n = k then Option.none else alookup d n := by
  induction d with
  | nil => by_cases h : n = k <;> simp [aerase, alookup, h]
  | cons p rest ih =>
    obtain ⟨a, b⟩ := p
    by_cases hak : a = k
    · subst hak
      by_cases hn : n = a
      · subst hn; simp [aerase, alookup, ih]
      · have h2 : ¬ a = n := fun h => hn h.symm
        simp [aerase, alookup, ih, hn, h2]
    · by_cases hn : a = n
      · subst hn
        simp [aerase, alookup, hak]
      · simp [aerase, alookup, hak, hn, ih]

theorem alookup_eq_none {κ β : Type} [DecidableEq κ] (l : List (κ × β))
    (n : κ) (h : n ∉ l.map Prod.fst) : alookup l n = Option.none := by
  induction l with
  | nil => rfl
  | cons p rest ih =>
    obtain ⟨k, v⟩ := p
    simp only [List.map_cons, List.mem_cons] at h
    push_neg at h
    have h1 : ¬ k = n := fun hh => h.1 hh.symm
    simp [alookup, h1, ih h.2]

theorem alookup_dinsertAll (l : List Entry) (d : Dict) (n : String) :
    alookup (dinsertAll d l) n = (lastVal? l n).or (alookup d n) := by
  induction l generalizing d with
  | nil => simp [dinsertAll, lastVal?]
  | cons p rest ih =>
    obtain ⟨k, v⟩ := p
    have step : dinsertAll d ((k, v) :: rest) = dinsertAll (ainsert d k v) rest := rfl
    rw [step, ih, lastVal?, alookup_ainsert]
    cases hrest : lastVal? rest n with
    | none => by_cases hk : k = n <;> simp [hk]
    | some w => simp

theorem lastVal?_eq_none (l : List Entry) (n : String)
    (h : n ∉ l.map Prod.fst) : lastVal? l n = Option.none := by
  induction l with
  | nil => rfl
  | cons p rest ih =>
    obtain ⟨k, v⟩ := p
    simp only [List.map_cons, List.mem_cons] at h
    push_neg at h
    have h1 : ¬ k = n := fun hh => h.1 hh.symm
    simp [lastVal?, ih h.2, h1]

theorem lastVal?_eq_alookup (l : List Entry) (n : String)
    (h : (l.map Prod.fst).Nodup) : lastVal? l n = alookup l n := by
  induction l with
  | nil => rfl
  | cons p rest ih =>
    obtain ⟨k, v⟩ := p
    simp only [List.map_cons, List.nodup_cons] at h
    rw [lastVal?, ih h.2, alookup_cons]
    by_cases hk : k = n
    · subst hk
      rw [alookup_eq_none rest k h.1]
      simp
    · simp [hk]

theorem lastVal?_posEntries_notMem (names : List String) (args : List Val)
    (i : Nat) (n : String) (h1 : n ∉ names)
    (h2 : ∀ m ∈ names, n ≠ idxKey m) :
    lastVal? (posEntries names args i) n = Option.none := by
  induction names generalizing args i with
  | nil => cases args <;> rfl
  | cons m ns ih =>
    cases args with
    | nil => rfl
    | cons v vs =>
      simp only [List.mem_cons, not_or] at h1
      have hm : ¬ m = n := fun h => h1.1 h.symm
      have hidx : ¬ idxKey m = n := fun h => (h2 m (List.mem_cons_self m ns)) h.symm
      have htail : ∀ m' ∈ ns, n ≠ idxKey m' := fun m' hm' => h2 m' (List.mem_cons_of_mem m hm')
      simp [posEntries, lastVal?, hm, hidx, ih vs (i + 1) h1.2 htail]

theorem lastVal?_posEntries (names : List String) (args : List Val) (i : Nat)
    (n : String) (hnd : names.Nodup) (h2 : ∀ m ∈ names, n ≠ idxKey m) :
    lastVal? (posEntries names args i) n = alookup (names.zip args) n := by
  induction names generalizing args i with
  | nil => cases args <;> rfl
  | cons m ns ih =>
    cases args with
    | nil => rfl
    | cons v vs =>
      simp only [List.nodup_cons] at hnd
      have hidx : ¬ idxKey m = n := fun h => (h2 m (List.mem_cons_self m ns)) h.symm
      have htail : ∀ m' ∈ ns, n ≠ idxKey m' := fun m' hm' => h2 m' (List.mem_cons_of_mem m hm')
      by_cases hm : m = n
      · subst hm
        have hrest : lastVal? (posEntries ns vs (i + 1)) m = Option.none :=
          lastVal?_posEntries_notMem ns vs (i + 1) m hnd.1 htail
        simp [posEntries, lastVal?, alookup_cons, hrest, hidx]
      · simp [posEntries, lastVal?, alookup_cons, hm, hidx, ih vs (i + 1) hnd.2 htail]

theorem alookup_fillDefaults (params : List Param) (d : Dict) (n : String) :
    alookup (fillDefaults params d) n =
      (alookup d n).or
        ((params.find? (fun p => p.name == n && p.default.isSome)).bind
          Param.default) := by
  induction params generalizing d with
  | nil => simp [fillDefaults]
  | cons p ps ih =>
    have step : fillDefaults (p :: ps) d
        = fillDefaults ps
            (if (alookup d p.name).isSome then d
             else
               match p.default with
               | some v => ainsert d p.name v
               | Option.none => d) := rfl
    rw [step]
    by_cases hpres : (alookup d p.name).isSome
    · rw [if_pos hpres, ih]
      by_cases hname : p.name = n
      · subst hname
        obtain ⟨w, hw⟩ := Option.isSome_iff_exists.mp hpres
        cases hdef : p.default with
        | none => simp [List.find?_cons, hdef, hw]
        | some v => simp [List.find?_cons, hdef, hw]
      · have hb : (p.name == n) = false := by
          simp [hname]
        simp [List.find?_cons, hb]
    · rw [if_neg hpres]
      have hdnone : alookup d p.name = Option.none :=
        Option.not_isSome_iff_eq_none.mp hpres
      cases hdef : p.default with
      | none =>
        rw [ih]
        by_cases hname : p.name = n
        · subst hname
          simp [List.find?_cons, hdef, hdnone]
        · have hb : (p.name == n) = false := by simp [hname]
          simp [List.find?_cons, hb]
      | some v =>
        rw [ih, alookup_ainsert]
        by_cases hname : p.name = n
        · subst hname
          simp [List.find?_cons, hdef, hdnone]
        · have hb : (p.name == n) = false := by simp [hname]
          simp [List.find?_cons, hb, hname]

theorem find_default_eq (params : List Param) (n : String)
    (hnd : (params.map Param.name).Nodup) :
    (params.find? (fun p => p.name == n && p.default.isSome)).bind Param.default
      = (params.find? (fun p => p.name == n)).bind Param.default := by
  induction params with
  | nil => rfl
  | cons p ps ih =>
    simp only [List.map_cons, List.nodup_cons] at hnd
    by_cases hname : p.name = n
    · subst hname
      cases hdef : p.default with
      | some v => simp [List.find?_cons, hdef]
      | none =>
        have hnone : ∀ q ∈ ps, ¬ (q.name == p.name && q.default.isSome) = true := by
          intro q hq hcontra
          have : q.name = p.name := by
            have := (Bool.and_eq_true _ _).mp hcontra
            exact beq_iff_eq.mp this.1
          exact hnd.1 (this ▸ List.mem_map_of_mem Param.name hq)
        have hfind : ps.find? (fun p' => p'.name == p.name && p'.default.isSome) = Option.none :=
          List.find?_eq_none.mpr hnone
        simp [List.find?_cons, hdef, hfind]
    · have hb : (p.name == n) = false := by simp [hname]
      simp [List.find?_cons, hb, ih hnd.2]


theorem alookup_makeArg (f : PyFunc) (args : List Val) (kwargs : Dict)
    (d : Dict) (n : String)
    (hnd : (f.params.map Param.name).Nodup)
    (hclash : ∀ a ∈ f.params.map Param.name, ∀ b ∈ f.params.map Param.name,
      a ≠ idxKey b)
    (hkwnd : (kwargs.map Prod.fst).Nodup)
    (hok : makeArgKwargsDic f args kwargs = .ok d)
    (hn : n ∈ f.params.map Param.name) :
    alookup d n = canonVal f.params args kwargs n := by
  simp only [makeArgKwargsDic] at hok
  split at hok
  · exact absurd hok (by simp)
  · split at hok
    · exact absurd hok (by simp)
    · simp only [Except.ok.injEq] at hok
      have h2n : ∀ m ∈ f.params.map Param.name, n ≠ idxKey m :=
        fun m hm => hclash n hn m hm
      have hcont : (f.params.map Param.name).contains n = true := by
        simpa using hn
      rw [← hok, alookup_fillDefaults, alookup_dinsertAll, alookup_dinsertAll,
        lastVal?_eq_alookup kwargs n hkwnd,
        lastVal?_posEntries (f.params.map Param.name) args 0 n hnd h2n,
        find_default_eq f.params n hnd]
      unfold canonVal
      cases halk : alookup kwargs n with
      | some v => simp [halk]
      | none =>
        cases hzip : alookup ((f.params.map Param.name).zip args) n with
        | some v => simp [halk, hzip]
        | none =>
          have hex : ∃ a ∈ f.params, a.name = n := by
            obtain ⟨p, hp, hpn⟩ := List.mem_map.mp hn
            exact ⟨p, hp, hpn⟩
          simp [halk, hzip, alookup, hex]




theorem claim1_counterexample :
    (makeArgKwargsDic twoParamFunc [.int 1, .int 2] []).map
        (fun d => alookup d "x_arg_index") = .ok (some (.int 0))
    ∧ (makeArgKwargsDic twoParamFunc [] [("x", .int 1), ("y", .int 2)]).map
        (fun d => alookup d "x_arg_index") = .ok Option.none
    ∧ (makeArgKwargsDic twoParamFunc [.int 1] [("y", .int 2)]).map
        (fun d => alookup d "y_arg_index") = .ok Option.none
    ∧ (makeArgKwargsDic twoParamFunc [.int 1, .int 2] []).map
        (fun d => alookup d "y_arg_index") = .ok (some (.int 1)) := by
  decide

theorem claim1_amended (f : PyFunc) (args1 args2 : List Val)
    (kwargs1 kwargs2 d1 d2 : Dict)
    (hnd : (f.params.map Param.name).Nodup)
    (hclash : ∀ a ∈ f.params.map Param.name, ∀ b ∈ f.params.map Param.name,
      a ≠ idxKey b)
    (hkwnd1 : (kwargs1.map Prod.fst).Nodup)
    (hkwnd2 : (kwargs2.map Prod.fst).Nodup)
    (hok1 : makeArgKwargsDic f args1 kwargs1 = .ok d1)
    (hok2 : makeArgKwargsDic f args2 kwargs2 = .ok d2)
    (hsame : ∀ n ∈ f.params.map Param.name,
      canonVal f.params args1 kwargs1 n = canonVal f.params args2 kwargs2 n) :
    ∀ n ∈ f.params.map Param.name, alookup d1 n = alookup d2 n := by
  intro n hn
  rw [alookup_makeArg f args1 kwargs1 d1 n hnd hclash hkwnd1 hok1 hn,
    alookup_makeArg f args2 kwargs2 d2 n hnd hclash hkwnd2 hok2 hn]
  exact hsame n hn

theorem claim1_amended_witness :
    alookup [("x", Val.int 1), ("x_arg_index", Val.int 0), ("y", Val.int 2)] "x"
      = alookup [("x", Val.int 1), ("y", Val.int 2)] "x"
    ∧ alookup [("x", Val.int 1), ("x_arg_index", Val.int 0), ("y", Val.int 2)] "y"
      = alookup [("x", Val.int 1), ("y", Val.int 2)] "y" :=
  ⟨claim1_amended twoParamFunc [.int 1] [] [("y", .int 2)]
      [("x", .int 1), ("y", .int 2)]
      [("x", .int 1), ("x_arg_index", .int 0), ("y", .int 2)]
      [("x", .int 1), ("y", .int 2)]
      (by decide) (by decide) (by decide) (by decide) (by decide) (by decide)
      (by decide) "x" (by decide),
   claim1_amended twoParamFunc [.int 1] [] [("y", .int 2)]
      [("x", .int 1), ("y", .int 2)]
      [("x", .int 1), ("x_arg_index", .int 0), ("y", .int 2)]
      [("x", .int 1), ("y", .int 2)]
      (by decide) (by decide) (by decide) (by decide) (by decide) (by decide)
      (by decide) "y" (by decide)⟩

theorem claim6_signature_mismatch (f : PyFunc) (args : List Val)
    (kwargs : Dict) :
    makeArgKwargsDic f args kwargs = .error .assertionError
      ↔ ∃ p ∈ kwargs, p.1 ∉ f.params.map Param.name := by
  constructor
  · intro h
    simp only [makeArgKwargsDic] at h
    split at h
    · rename_i hcond
      simp only [List.any_eq_true] at hcond
      obtain ⟨p, hp, hnp⟩ := hcond
      refine ⟨p, hp, ?_⟩
      simpa using hnp
    · split at h
      · exact absurd h (by simp)
      · exact absurd h (by simp)
  · intro hex
    obtain ⟨p, hp, hnp⟩ := hex
    have hcond :
        (kwargs.any fun q => !((f.params.map Param.name).contains q.1)) = true := by
      simp only [List.any_eq_true]
      exact ⟨p, hp, by simpa using hnp⟩
    simp only [makeArgKwargsDic, hcond]
    rfl

theorem claim6_signature_mismatch_witness :
    makeArgKwargsDic twoParamFunc [] [("z", Val.int 3)] = .error .assertionError :=
  (claim6_signature_mismatch twoParamFunc [] [("z", .int 3)]).mpr
    ⟨("z", .int 3), by decide, by decide⟩

theorem alookup_mem {κ β : Type} [DecidableEq κ] (l : List (κ × β)) (n : κ)
    (v : β) (h : alookup l n = some v) : (n, v) ∈ l := by
  induction l with
  | nil => exact absurd h (by simp [alookup])
  | cons p rest ih =>
    obtain ⟨a, b⟩ := p
    by_cases ha : a = n
    · subst ha
      simp [alookup] at h
      simp [h]
    · simp [alookup, ha] at h
      exact List.mem_cons_of_mem _ (ih h)

theorem claim7_missing_parent (p : Val) (fs : FS) (alloc : Option Int)
    (h : fs.parentExists = false) :
    instanciateJoblibCache p fs alloc = (.error .valueError, [.openStore p]) := by
  simp [instanciateJoblibCache, h]

theorem claim7_missing_parent_witness :
    FS.parentExists ⟨false, true, 10000000000⟩ = false
    ∧ instanciateJoblibCache (.path "/nonexistent/cache")
        ⟨false, true, 10000000000⟩ Option.none
      = (.error .valueError, [.openStore (.path "/nonexistent/cache")]) :=
  ⟨rfl, claim7_missing_parent (.path "/nonexistent/cache")
    ⟨false, true, 10000000000⟩ Option.none rfl⟩

theorem claim5_bypass (f : PyFunc) (selfGlobal : Option Memory) (gs : Store)
    (fsAt : Val → FS) (diskAt : Val → Store) (args : List Val) (kwargs : Dict)
    (h : truthy ((alookup kwargs "cache_results").getD (.bool true)) = false) :
    cachedFunc f selfGlobal gs fsAt diskAt args kwargs
      = (callFunc f args kwargs, Option.none, []) := by
  simp [cachedFunc, h]

theorem claim5_bypass_witness :
    truthy ((alookup [("cache_results", Val.bool false)] "cache_results").getD
        (.bool true)) = false
    ∧ cachedFunc bypassFunc (some ⟨9000000000⟩) []
        (fun _ => ⟨true, true, 10000000000⟩) (fun _ => [])
        [.int 3] [("cache_results", .bool false)]
      = (callFunc bypassFunc [.int 3] [("cache_results", .bool false)],
         Option.none, []) :=
  ⟨by decide,
   claim5_bypass bypassFunc (some ⟨9000000000⟩) []
     (fun _ => ⟨true, true, 10000000000⟩) (fun _ => [])
     [.int 3] [("cache_results", .bool false)] (by decide)⟩

theorem claim2_counterexample :
    cachedFunc oneParamFunc (some ⟨9000000000⟩) []
      (fun _ => ⟨true, true, 10000000000⟩) (fun _ => [])
      [.int 1] [("again", .bool true)]
      = (.error .assertionError, Option.none, [.fingerprint]) := rfl

theorem claim2_amended (f : PyFunc) (mem : Memory) (gs : Store)
    (fsAt : Val → FS) (diskAt : Val → Store) (args : List Val) (kwargs : Dict)
    (hcr : alookup kwargs "cache_results" = Option.none)
    (hcp : alookup kwargs "cache_path" = Option.none)
    (hagain : (alookup kwargs "again").isSome)
    (hundeclared : "again" ∉ f.params.map Param.name) :
    (cachedFunc f (some mem) gs fsAt diskAt args kwargs).1
      = .error .assertionError := by
  obtain ⟨v, hv⟩ := Option.isSome_iff_exists.mp hagain
  have hmem : ("again", v) ∈ kwargs := alookup_mem kwargs "again" v hv
  have herr : makeArgKwargsDic f args kwargs = .error .assertionError := by
    have hcond :
        (kwargs.any fun q => !((f.params.map Param.name).contains q.1)) = true := by
      simp only [List.any_eq_true]
      exact ⟨("again", v), hmem, by simpa using hundeclared⟩
    simp only [makeArgKwargsDic, hcond]
    rfl
  simp [cachedFunc, cacheThrough, hcr, hcp, herr, truthy]

theorem claim2_amended_witness :
    alookup [("again", Val.bool true)] "cache_results" = Option.none
    ∧ (cachedFunc oneParamFunc (some ⟨9000000000⟩) []
        (fun _ => ⟨true, true, 10000000000⟩) (fun _ => [])
        [.int 1] [("again", .bool true)]).1 = .error .assertionError :=
  ⟨rfl,
   claim2_amended oneParamFunc ⟨9000000000⟩ []
     (fun _ => ⟨true, true, 10000000000⟩) (fun _ => [])
     [.int 1] [("again", .bool true)]
     (by decide) (by decide) (by decide) (by decide)⟩

theorem claim10_module_rewrite (f : FuncObj) :
    (strContains f.module "__main__" = true →
      decoratorModuleEffect f = { f with module := "cachecache_persistent" })
    ∧ (strContains f.module "__main__" = false →
      decoratorModuleEffect f = f) := by
  constructor <;> intro h <;> simp [decoratorModuleEffect, h]

theorem claim10_module_rewrite_witness :
    decoratorModuleEffect ⟨"__main__"⟩ = ⟨"cachecache_persistent"⟩
    ∧ decoratorModuleEffect ⟨"somepackage.module"⟩ = ⟨"somepackage.module"⟩ :=
  ⟨(claim10_module_rewrite ⟨"__main__"⟩).1 (by decide),
   (claim10_module_rewrite ⟨"somepackage.module"⟩).2 (by decide)⟩

theorem claim8_unusable_degrade (f : PyFunc) (selfGlobal : Option Memory)
    (gs : Store) (fsAt : Val → FS) (diskAt : Val → Store) (args : List Val)
    (kwargs : Dict)
    (hcr : truthy ((alookup kwargs "cache_results").getD (.bool true)) = true)
    (hglobal : (alookup kwargs "cache_path").getD .none = Val.none →
      selfGlobal = Option.none)
    (hruntime : (alookup kwargs "cache_path").getD .none ≠ Val.none →
      (fsAt ((alookup kwargs "cache_path").getD .none)).parentExists = true
      ∧ isWritable (fsAt ((alookup kwargs "cache_path").getD .none)) 10 = false) :
    cachedFunc f selfGlobal gs fsAt diskAt args kwargs
      = (callFunc f args kwargs, Option.none,
         if (alookup kwargs "cache_path").getD .none = Val.none then []
         else [.openStore ((alookup kwargs "cache_path").getD .none)]) := by
  by_cases hcp : (alookup kwargs "cache_path").getD .none = Val.none
  · have hg := hglobal hcp
    simp [cachedFunc, hcr, hcp, hg]
  · obtain ⟨hpe, hw⟩ := hruntime hcp
    simp [cachedFunc, hcr, hcp, instanciateJoblibCache, hpe, hw]

theorem claim8_unusable_degrade_witness :
    isWritable ⟨true, false, 10000000000⟩ 10 = false
    ∧ cachedFunc pathFunc (some ⟨9000000000⟩) []
        (fun _ => ⟨true, false, 10000000000⟩) (fun _ => [])
        [.int 3] [("cache_path", .path "ro")]
      = (callFunc pathFunc [.int 3] [("cache_path", .path "ro")], Option.none,
         [.openStore (.path "ro")])
    ∧ callFunc pathFunc [.int 3] [("cache_path", .path "ro")] = .ok (.int 3) :=
  ⟨by decide,
   claim8_unusable_degrade pathFunc (some ⟨9000000000⟩) []
     (fun _ => ⟨true, false, 10000000000⟩) (fun _ => [])
     [.int 3] [("cache_path", .path "ro")]
     (by decide) (fun h => absurd h (by decide)) (fun _ => ⟨rfl, rfl⟩),
   by decide⟩

theorem callAndShelve_events (f : PyFunc) (args : List Val) (kwargs : Dict)
    (key : Dict) (st : Store) :
    ∀ e ∈ (callAndShelve f args kwargs key st).2,
      isOpenStore e = false ∧ isReduce e = false := by
  intro e he
  unfold callAndShelve at he
  rcases halk : alookup st key with _ | w
  · rw [halk] at he
    rcases hcf : callFunc f args kwargs with er | v
    · rw [hcf] at he
      simp only [List.mem_cons, List.not_mem_nil, or_false] at he
      rcases he with rfl | rfl
      · exact ⟨rfl, rfl⟩
      · exact ⟨rfl, rfl⟩
    · rw [hcf] at he
      simp only [List.mem_cons, List.not_mem_nil, or_false] at he
      rcases he with rfl | rfl | rfl
      · exact ⟨rfl, rfl⟩
      · exact ⟨rfl, rfl⟩
      · exact ⟨rfl, rfl⟩
  · rw [halk] at he
    simp only [List.mem_cons, List.not_mem_nil, or_false] at he
    rcases he with rfl
    exact ⟨rfl, rfl⟩

theorem cacheThrough_events (f : PyFunc) (again : Bool) (entries : Store)
    (args : List Val) (kwargs : Dict) :
    ∀ e ∈ (cacheThrough f again entries args kwargs).2.2,
      isOpenStore e = false ∧ isReduce e = false := by
  intro e he
  cases again with
  | true =>
    simp only [cacheThrough, eq_self_iff_true, if_true] at he
    split at he
    · simp only [List.mem_singleton] at he
      subst he
      exact ⟨rfl, rfl⟩
    · split at he
      · rename_i h1
        simp only [List.mem_append, List.mem_singleton] at he
        rcases he with rfl | he
        · exact ⟨rfl, rfl⟩
        · exact callAndShelve_events f args kwargs _ entries e (by rw [h1]; exact he)
      · rename_i h1
        split at he
        · rename_i h2
          simp only [List.mem_append, List.mem_singleton] at he
          rcases he with ((rfl | he) | rfl) | he
          · exact ⟨rfl, rfl⟩
          · exact callAndShelve_events f args kwargs _ entries e (by rw [h1]; exact he)
          · exact ⟨rfl, rfl⟩
          · exact callAndShelve_events f args kwargs _ _ e (by rw [h2]; exact he)
        · rename_i h2
          simp only [List.mem_append, List.mem_singleton] at he
          rcases he with ((rfl | he) | rfl) | he
          · exact ⟨rfl, rfl⟩
          · exact callAndShelve_events f args kwargs _ entries e (by rw [h1]; exact he)
          · exact ⟨rfl, rfl⟩
          · exact callAndShelve_events f args kwargs _ _ e (by rw [h2]; exact he)
  | false =>
    simp only [cacheThrough, Bool.false_eq_true, if_false, List.append_nil] at he
    split at he
    · simp only [List.mem_singleton] at he
      subst he
      exact ⟨rfl, rfl⟩
    · split at he
      · rename_i h1
        simp only [List.mem_append, List.mem_singleton] at he
        rcases he with rfl | he
        · exact ⟨rfl, rfl⟩
        · exact callAndShelve_events f args kwargs _ entries e (by rw [h1]; exact he)
      · rename_i h1
        split at he
        · rename_i h2
          simp only [List.mem_append, List.mem_singleton] at he
          rcases he with (rfl | he) | he
          · exact ⟨rfl, rfl⟩
          · exact callAndShelve_events f args kwargs _ entries e (by rw [h1]; exact he)
          · exact callAndShelve_events f args kwargs _ _ e (by rw [h2]; exact he)
        · rename_i h2
          simp only [List.mem_append, List.mem_singleton] at he
          rcases he with (rfl | he) | he
          · exact ⟨rfl, rfl⟩
          · exact callAndShelve_events f args kwargs _ entries e (by rw [h1]; exact he)
          · exact callAndShelve_events f args kwargs _ _ e (by rw [h2]; exact he)



theorem cachedFunc_global_events (f : PyFunc) (selfGlobal : Option Memory)
    (gs : Store) (fsAt : Val → FS) (diskAt : Val → Store) (args : List Val)
    (kwargs : Dict)
    (hcp : (alookup kwargs "cache_path").getD .none = Val.none) :
    ∀ e ∈ (cachedFunc f selfGlobal gs fsAt diskAt args kwargs).2.2,
      isOpenStore e = false ∧ isReduce e = false := by
  intro e he
  by_cases hcr : truthy ((alookup kwargs "cache_results").getD (.bool true)) = false
  · simp [cachedFunc, hcr] at he
  · have hred : (cachedFunc f selfGlobal gs fsAt diskAt args kwargs).2.2
        = (match selfGlobal with
           | some _ => (cacheThrough f
               (truthy ((alookup kwargs "again").getD (.bool false))) gs args kwargs).2.2
           | Option.none => []) := by
      cases selfGlobal with
      | none => simp [cachedFunc, hcp, hcr]
      | some mem => simp [cachedFunc, hcp, hcr]
    rw [hred] at he
    cases selfGlobal with
    | none => simp at he
    | some mem => exact cacheThrough_events f _ gs args kwargs e he

theorem claim3_counterexample :
    (cachedFunc oneParamFunc (some ⟨9000000000⟩) []
        (fun _ => ⟨true, true, 10000000000⟩) (fun _ => []) [.int 7] []).2.2
      = [.fingerprint, .lookupMiss [("x", .int 7)], .compute [("x", .int 7)],
         .storePut [("x", .int 7)] (.int 7), .lookupHit [("x", .int 7)]]
    ∧ ((cachedFunc oneParamFunc (some ⟨9000000000⟩) []
        (fun _ => ⟨true, true, 10000000000⟩) (fun _ => []) [.int 7] []).2.2).any
        isStorePut = true
    ∧ ((cachedFunc oneParamFunc (some ⟨9000000000⟩) []
        (fun _ => ⟨true, true, 10000000000⟩) (fun _ => []) [.int 7] []).2.2).any
        isReduce = false :=
  ⟨rfl, rfl, rfl⟩

theorem claim3_amended (p : Val) (fs : FS) (alloc : Option Int)
    (hpe : fs.parentExists = true) (hw : isWritable fs 10 = true) :
    (instanciateJoblibCache p fs alloc).1
        = .ok (some ⟨alloc.getD (fs.freeBytes - 1000000000)⟩)
    ∧ Ev.reduceSize (alloc.getD (fs.freeBytes - 1000000000))
        ∈ (instanciateJoblibCache p fs alloc).2
    ∧ ∀ (f : PyFunc) (selfGlobal : Option Memory) (gs : Store)
        (fsAt : Val → FS) (diskAt : Val → Store) (args : List Val)
        (kwargs : Dict),
        (alookup kwargs "cache_path").getD Val.none = Val.none →
        ((cachedFunc f selfGlobal gs fsAt diskAt args kwargs).2.2).any
          isReduce = false := by
  refine ⟨?_, ?_, ?_⟩
  · simp [instanciateJoblibCache, hpe, hw]
  · by_cases hfree : fs.freeBytes < 5000000000 <;>
      simp [instanciateJoblibCache, hpe, hw, hfree]
  · intro f sg gs fsAt dk args kwargs hcp
    rw [List.any_eq_false]
    intro e he
    have h := (cachedFunc_global_events f sg gs fsAt dk args kwargs hcp e he).2
    simp [h]

theorem claim3_amended_witness :
    (instanciateJoblibCache (.path "/tmp/cache") ⟨true, true, 10000000000⟩
        Option.none).1 = .ok (some ⟨9000000000⟩)
    ∧ Ev.reduceSize 9000000000
        ∈ (instanciateJoblibCache (.path "/tmp/cache") ⟨true, true, 10000000000⟩
            Option.none).2
    ∧ ((cachedFunc oneParamFunc (some ⟨9000000000⟩) []
        (fun _ => ⟨true, true, 10000000000⟩) (fun _ => []) [.int 7] []).2.2).any
        isReduce = false :=
  ⟨(claim3_amended (.path "/tmp/cache") ⟨true, true, 10000000000⟩ Option.none
      rfl (by decide)).1,
   (claim3_amended (.path "/tmp/cache") ⟨true, true, 10000000000⟩ Option.none
      rfl (by decide)).2.1,
   (claim3_amended (.path "/tmp/cache") ⟨true, true, 10000000000⟩ Option.none
      rfl (by decide)).2.2 oneParamFunc (some ⟨9000000000⟩) []
      (fun _ => ⟨true, true, 10000000000⟩) (fun _ => []) [.int 7] [] rfl⟩



theorem claim4_counterexample :
    (alookup ([] : Store) [("x", Val.int 5)]).isSome = false
    ∧ computeCount ((cachedFunc againFunc (some ⟨9000000000⟩) []
        (fun _ => ⟨true, true, 10000000000⟩) (fun _ => [])
        [.int 5] [("again", .bool true)]).2.2) = 2 :=
  ⟨rfl, rfl⟩

theorem claim4_amended (f : PyFunc) (mem : Memory) (gs : Store)
    (fsAt : Val → FS) (diskAt : Val → Store) (args : List Val) (kwargs : Dict)
    (d : Dict) (v : Val)
    (hcr : alookup kwargs "cache_results" = Option.none)
    (hcp : alookup kwargs "cache_path" = Option.none)
    (hagain : truthy ((alookup kwargs "again").getD (.bool false)) = true)
    (hok : makeArgKwargsDic f args kwargs = .ok d)
    (hcall : callFunc f args kwargs = .ok v) :
    (cachedFunc f (some mem) gs fsAt diskAt args kwargs).1 = .ok v
    ∧ storedAt (cachedFunc f (some mem) gs fsAt diskAt args kwargs).2.1
        (joblibKey f (controlNames.filter (fun k => (alookup d k).isSome))
          args kwargs) = some v
    ∧ computeCount (cachedFunc f (some mem) gs fsAt diskAt args kwargs).2.2
      = (if (alookup gs (joblibKey f (controlNames.filter
            (fun k => (alookup d k).isSome)) args kwargs)).isSome
         then 1 else 2) := by
  have hred : cachedFunc f (some mem) gs fsAt diskAt args kwargs
      = cacheThrough f true gs args kwargs := by
    have hcrv : truthy ((alookup kwargs "cache_results").getD (Val.bool true))
        = true := by
      rw [hcr]
      rfl
    simp [cachedFunc, hcp, hcrv, hagain]
  rw [hred]
  rcases halk : alookup gs (joblibKey f (controlNames.filter
      (fun k => (alookup d k).isSome)) args kwargs) with _ | w
  · have h1 : callAndShelve f args kwargs
        (joblibKey f (controlNames.filter (fun k => (alookup d k).isSome))
          args kwargs) gs
        = (.ok (ainsert gs (joblibKey f (controlNames.filter
            (fun k => (alookup d k).isSome)) args kwargs) v),
           [.lookupMiss (joblibKey f (controlNames.filter
              (fun k => (alookup d k).isSome)) args kwargs),
            .compute (joblibKey f (controlNames.filter
              (fun k => (alookup d k).isSome)) args kwargs),
            .storePut (joblibKey f (controlNames.filter
              (fun k => (alookup d k).isSome)) args kwargs) v]) := by
      simp [callAndShelve, halk, hcall]
    have h2 : callAndShelve f args kwargs
        (joblibKey f (controlNames.filter (fun k => (alookup d k).isSome))
          args kwargs)
        (aerase (ainsert gs (joblibKey f (controlNames.filter
            (fun k => (alookup d k).isSome)) args kwargs) v)
          (joblibKey f (controlNames.filter (fun k => (alookup d k).isSome))
            args kwargs))
        = (.ok (ainsert (aerase (ainsert gs (joblibKey f (controlNames.filter
              (fun k => (alookup d k).isSome)) args kwargs) v)
            (joblibKey f (controlNames.filter (fun k => (alookup d k).isSome))
              args kwargs))
            (joblibKey f (controlNames.filter (fun k => (alookup d k).isSome))
              args kwargs) v),
           [.lookupMiss (joblibKey f (controlNames.filter
              (fun k => (alookup d k).isSome)) args kwargs),
            .compute (joblibKey f (controlNames.filter
              (fun k => (alookup d k).isSome)) args kwargs),
            .storePut (joblibKey f (controlNames.filter
              (fun k => (alookup d k).isSome)) args kwargs) v]) := by
      simp [callAndShelve, alookup_aerase, hcall]
    simp only [cacheThrough, hok, h1, h2, eq_self_iff_true, if_true]
    refine ⟨?_, ?_, ?_⟩
    · simp [alookup_ainsert]
    · simp [storedAt, alookup_ainsert]
    · simp [halk, computeCount]
  · have h1 : callAndShelve f args kwargs
        (joblibKey f (controlNames.filter (fun k => (alookup d k).isSome))
          args kwargs) gs
        = (.ok gs, [.lookupHit (joblibKey f (controlNames.filter
            (fun k => (alookup d k).isSome)) args kwargs)]) := by
      simp [callAndShelve, halk]
    have h2 : callAndShelve f args kwargs
        (joblibKey f (controlNames.filter (fun k => (alookup d k).isSome))
          args kwargs)
        (aerase gs (joblibKey f (controlNames.filter
            (fun k => (alookup d k).isSome)) args kwargs))
        = (.ok (ainsert (aerase gs (joblibKey f (controlNames.filter
              (fun k => (alookup d k).isSome)) args kwargs))
            (joblibKey f (controlNames.filter (fun k => (alookup d k).isSome))
              args kwargs) v),
           [.lookupMiss (joblibKey f (controlNames.filter
              (fun k => (alookup d k).isSome)) args kwargs),
            .compute (joblibKey f (controlNames.filter
              (fun k => (alookup d k).isSome)) args kwargs),
            .storePut (joblibKey f (controlNames.filter
              (fun k => (alookup d k).isSome)) args kwargs) v]) := by
      simp [callAndShelve, alookup_aerase, hcall]
    simp only [cacheThrough, hok, h1, h2, eq_self_iff_true, if_true]
    refine ⟨?_, ?_, ?_⟩
    · simp [alookup_ainsert]
    · simp [storedAt, alookup_ainsert]
    · simp [halk, computeCount]

theorem claim4_amended_witness :
    (cachedFunc againFunc (some ⟨9000000000⟩) []
        (fun _ => ⟨true, true, 10000000000⟩) (fun _ => [])
        [.int 5] [("again", .bool true)]).1 = .ok (.int 5)
    ∧ storedAt (cachedFunc againFunc (some ⟨9000000000⟩) []
        (fun _ => ⟨true, true, 10000000000⟩) (fun _ => [])
        [.int 5] [("again", .bool true)]).2.1
        (joblibKey againFunc (controlNames.filter (fun k =>
          (alookup [("x", Val.int 5), ("x_arg_index", Val.int 0),
            ("again", Val.bool true)] k).isSome)) [.int 5]
          [("again", .bool true)]) = some (.int 5)
    ∧ computeCount (cachedFunc againFunc (some ⟨9000000000⟩) []
        (fun _ => ⟨true, true, 10000000000⟩) (fun _ => [])
        [.int 5] [("again", .bool true)]).2.2
      = (if (alookup ([] : Store) (joblibKey againFunc
            (controlNames.filter (fun k =>
              (alookup [("x", Val.int 5), ("x_arg_index", Val.int 0),
                ("again", Val.bool true)] k).isSome)) [.int 5]
            [("again", .bool true)])).isSome then 1 else 2) :=
  claim4_amended againFunc ⟨9000000000⟩ []
    (fun _ => ⟨true, true, 10000000000⟩) (fun _ => [])
    [.int 5] [("again", .bool true)]
    [("x", Val.int 5), ("x_arg_index", Val.int 0), ("again", Val.bool true)]
    (.int 5) rfl rfl rfl (by decide) (by decide)

theorem instanciate_opens (p : Val) (fs : FS) (alloc : Option Int) :
    Ev.openStore p ∈ (instanciateJoblibCache p fs alloc).2 := by
  unfold instanciateJoblibCache
  split_ifs <;> simp

theorem cachedFunc_opens (f : PyFunc) (selfGlobal : Option Memory) (gs : Store)
    (fsAt : Val → FS) (diskAt : Val → Store) (args : List Val) (kwargs : Dict)
    (hcr : truthy ((alookup kwargs "cache_results").getD (.bool true)) = true)
    (hcp : (alookup kwargs "cache_path").getD .none ≠ Val.none) :
    Ev.openStore ((alookup kwargs "cache_path").getD .none)
      ∈ (cachedFunc f selfGlobal gs fsAt diskAt args kwargs).2.2 := by
  have hncr : ¬ (truthy ((alookup kwargs "cache_results").getD (.bool true))
      = false) := by
    simp [hcr]
  simp only [cachedFunc]
  rw [if_neg hncr, if_neg hcp]
  rcases hop : instanciateJoblibCache ((alookup kwargs "cache_path").getD .none)
      (fsAt ((alookup kwargs "cache_path").getD .none)) Option.none with ⟨r, evs0⟩
  have hmem : Ev.openStore ((alookup kwargs "cache_path").getD .none) ∈ evs0 := by
    have h := instanciate_opens ((alookup kwargs "cache_path").getD .none)
      (fsAt ((alookup kwargs "cache_path").getD .none)) Option.none
    rw [hop] at h
    exact h
  rcases r with er | m
  · exact hmem
  · rcases m with _ | mem
    · exact hmem
    · exact List.mem_append_left _ hmem

theorem rewriteKwargs_pathlike (dpName localCachePath : String)
    (argKwargs kwargs : Dict) (dp : Val) (s : String)
    (hdp : alookup argKwargs dpName = some dp) (hpl : pathLike dp = some s)
    (hnoov : alookup kwargs "cache_path" = Option.none
      ∨ alookup kwargs "cache_path" = some Val.none) :
    rewriteKwargs dpName localCachePath argKwargs kwargs
      = ainsert kwargs "cache_path" (.path (s ++ "/" ++ localCachePath)) := by
  rcases hnoov with h | h <;> simp [rewriteKwargs, hdp, hpl, h]

theorem rewriteKwargs_skip (dpName localCachePath : String)
    (argKwargs kwargs : Dict)
    (hnone : ∀ dp, alookup argKwargs dpName = some dp
      → pathLike dp = Option.none) :
    rewriteKwargs dpName localCachePath argKwargs kwargs = kwargs := by
  rcases hdp : alookup argKwargs dpName with _ | dp
  · simp [rewriteKwargs, hdp]
  · simp [rewriteKwargs, hdp, hnone dp hdp]

theorem claim9_routing (dpName localCachePath : String) (f : PyFunc)
    (selfGlobal : Option Memory) (gs : Store) (fsAt : Val → FS)
    (diskAt : Val → Store) (args : List Val) (kwargs : Dict) (d : Dict)
    (hok : makeArgKwargsDic f args kwargs = .ok d)
    (hnoov : alookup kwargs "cache_path" = Option.none
      ∨ alookup kwargs "cache_path" = some Val.none)
    (hcr : truthy ((alookup kwargs "cache_results").getD (.bool true)) = true) :
    (∀ dp s, alookup d dpName = some dp → pathLike dp = some s →
      Ev.openStore (.path (s ++ "/" ++ localCachePath))
        ∈ (locallyCachedFunc dpName localCachePath f selfGlobal gs fsAt diskAt
            args kwargs).2.2)
    ∧ ((∀ dp, alookup d dpName = some dp → pathLike dp = Option.none) →
      locallyCachedFunc dpName localCachePath f selfGlobal gs fsAt diskAt
          args kwargs
        = cachedFunc f selfGlobal gs fsAt diskAt args kwargs
      ∧ ∀ e ∈ (locallyCachedFunc dpName localCachePath f selfGlobal gs fsAt
            diskAt args kwargs).2.2, isOpenStore e = false) := by
  constructor
  · intro dp s hdp hpl
    have hred : locallyCachedFunc dpName localCachePath f selfGlobal gs fsAt
        diskAt args kwargs
        = cachedFunc f selfGlobal gs fsAt diskAt args
            (ainsert kwargs "cache_path" (.path (s ++ "/" ++ localCachePath))) := by
      simp only [locallyCachedFunc, hok,
        rewriteKwargs_pathlike dpName localCachePath d kwargs dp s hdp hpl hnoov]
    rw [hred]
    have hcr2 : truthy ((alookup (ainsert kwargs "cache_path"
        (.path (s ++ "/" ++ localCachePath))) "cache_results").getD (.bool true))
        = true := by
      rw [alookup_ainsert]
      simp only [if_neg (by decide : ¬ ("cache_path" = "cache_results"))]
      exact hcr
    have hcp2 : (alookup (ainsert kwargs "cache_path"
        (.path (s ++ "/" ++ localCachePath))) "cache_path").getD .none
        ≠ Val.none := by
      rw [alookup_ainsert]
      simp
    have h := cachedFunc_opens f selfGlobal gs fsAt diskAt args
      (ainsert kwargs "cache_path" (.path (s ++ "/" ++ localCachePath)))
      hcr2 hcp2
    have heq : (alookup (ainsert kwargs "cache_path"
        (.path (s ++ "/" ++ localCachePath))) "cache_path").getD .none
        = Val.path (s ++ "/" ++ localCachePath) := by
      rw [alookup_ainsert]
      simp
    rw [heq] at h
    exact h
  · intro hnone
    have hred : locallyCachedFunc dpName localCachePath f selfGlobal gs fsAt
        diskAt args kwargs
        = cachedFunc f selfGlobal gs fsAt diskAt args kwargs := by
      simp only [locallyCachedFunc, hok,
        rewriteKwargs_skip dpName localCachePath d kwargs hnone]
    refine ⟨hred, ?_⟩
    rw [hred]
    intro e he
    have hcp : (alookup kwargs "cache_path").getD .none = Val.none := by
      rcases hnoov with h | h <;> rw [h] <;> rfl
    exact (cachedFunc_global_events f selfGlobal gs fsAt diskAt args kwargs
      hcp e he).1

theorem claim9_routing_witness :
    Ev.openStore (.path "/data/.local_cache")
      ∈ (locallyCachedFunc "datapath" ".local_cache" datapathFunc
          (some ⟨9000000000⟩) [] (fun _ => ⟨true, true, 10000000000⟩)
          (fun _ => []) [.path "/data", .int 1] []).2.2 :=
  (claim9_routing "datapath" ".local_cache" datapathFunc (some ⟨9000000000⟩) []
      (fun _ => ⟨true, true, 10000000000⟩) (fun _ => [])
      [.path "/data", .int 1] []
      [("datapath", .path "/data"), ("datapath_arg_index", .int 0),
       ("x", .int 1), ("x_arg_index", .int 1)]
      (by decide) (Or.inl rfl) rfl).1 (.path "/data") "/data" (by decide) rfl

end Cachecache
